import Mathlib

/-!
Verification development for the refplatinator ISO-image extraction engine
(`src/refplatinator.py`).  The Python source is shallowly embedded: filenames
and paths are `List Char`, machine integers are `Nat`, fallible operations
return `Except`, and the I/O performed while streaming a file to disk is
abstracted as a caller-supplied `Except`-valued oracle.  Every definition is
translated from the source; the only definitions translated from the design
document instead are marked `Modelled from the spec:` in their doc comment
(they model the external library's SUSP parse loop, which is patched but not
defined in the source tree).
-/

set_option maxRecDepth 4000

/-- Coerce a string literal to the character-list representation used
throughout the development. -/
def strL (s : String) : List Char := s.data

/-- ASCII lower-casing of one character, modelling Python `str.lower` on the
ASCII range (the filenames handled by the tool are ASCII). -/
def lowChar (c : Char) : Char := c.toLower

/-- Python `str.lower`, character-wise. -/
def lowerStr (l : List Char) : List Char := l.map lowChar

/-- Python string replacement of the substring `;1` by the empty string:
remove every occurrence, scanning left to right, non-overlapping.  Mirrors
the source's `filename.replace` call that strips the ISO `;1` version
suffix. -/
def stripSemi1 : List Char → List Char
  | [] => []
  | ';' :: '1' :: rest => stripSemi1 rest
  | c :: rest => c :: stripSemi1 rest

/-- Python `sep in s` / split helper: `s.split(sep)` for a one-character
separator. -/
def splitOnChar (sep : Char) : List Char → List (List Char)
  | [] => [[]]
  | c :: rest =>
    match splitOnChar sep rest with
    | [] => [[c]]
    | p :: ps => if c = sep then [] :: p :: ps else (c :: p) :: ps

/-- Source, `extract_from_iso`: `iso_path.split('/')[-2] if '/' in iso_path
else ''` — the immediate parent directory name of a path. -/
def parentFolder (path : List Char) : List Char :=
  if path.contains '/' then
    let ps := splitOnChar '/' path
    ps.getD (ps.length - 2) []
  else []

/-! ## Regex patterns of the platform table

The table uses only two regex shapes, both anchored with `^` (implicit in
`re.match`) and `$`:

* `^LIT(\d+)_(\d+)_(\d+)SUF$` — a literal, three digit groups separated by
  underscores, a literal suffix;
* `^LIT.*SUF$` — a literal prefix, anything (`.` excludes newline), a literal
  suffix.

`\d` is modelled as an ASCII digit (`Char.isDigit`); no claim settled here
depends on non-ASCII digits.  `$` in Python matches at the end of the string
or just before one final newline; both alternatives are modelled.  In the
three-group shape every `(\d+)` is followed by a non-digit literal, so the
greedy maximal-munch reading used below coincides with Python's backtracking
semantics, for success and for the captured groups alike. -/

/-- Match a literal at the head of the input, returning the rest. -/
def matchLit : List Char → List Char → Option (List Char)
  | [], s => some s
  | _ :: _, [] => none
  | c :: cs, d :: ds => if c = d then matchLit cs ds else none

/-- Greedy maximal run of ASCII digits: the `(\d+)` capture and the rest. -/
def takeDigits : List Char → List Char × List Char
  | [] => ([], [])
  | c :: cs =>
    if c.isDigit then
      let (d, r) := takeDigits cs
      (c :: d, r)
    else ([], c :: cs)

/-- Python `$`: end of string, or just before one trailing newline. -/
def dollarTail : List Char → Bool
  | [] => true
  | ['\n'] => true
  | _ => false

/-- No newline in the run consumed by `.*`. -/
def noNL (l : List Char) : Bool := l.all (fun c => !(c = '\n'))

/-- Recognizer for `.*SUF$` applied to the rest of the input: some split
`mid ++ suf ++ tail` with `mid` newline-free and `tail` empty or `"\n"`. -/
def dotStarSuf (suf r : List Char) : Bool :=
  (List.isSuffixOf suf r && noNL (r.take (r.length - suf.length))) ||
  (List.isSuffixOf (suf ++ ['\n']) r && noNL (r.take (r.length - (suf.length + 1))))

/-- Matcher for the table's `^PRE.*SUF$` patterns (no capture groups). -/
def rePreSuf (pre suf : List Char) (s : List Char) : Option (List (List Char)) :=
  match matchLit pre s with
  | none => none
  | some r => if dotStarSuf suf r then some [] else none

/-- Matcher for the table's `^PRE(\d+)_(\d+)_(\d+)SUF$` patterns, returning
the three captured digit groups. -/
def reThreeGroups (pre suf : List Char) (s : List Char) : Option (List (List Char)) :=
  match matchLit pre s with
  | none => none
  | some r1 =>
    let (g1, r2) := takeDigits r1
    if g1 = [] then none else
    match matchLit ['_'] r2 with
    | none => none
    | some r3 =>
      let (g2, r4) := takeDigits r3
      if g2 = [] then none else
      match matchLit ['_'] r4 with
      | none => none
      | some r5 =>
        let (g3, r6) := takeDigits r5
        if g3 = [] then none else
        match matchLit suf r6 with
        | none => none
        | some r7 => if dollarTail r7 then some [g1, g2, g3] else none

/-! ## Duplicate resolver (`extract_from_iso`, first pass)

The source keeps a dict `extracted_files` keyed by `filename.lower()`;
inserting a candidate for an existing key replaces the stored entry only when
the new size is strictly larger (`file_size > extracted_files[k]['size']`).
A Python dict is embedded as an association list in insertion order. -/

/-- One candidate seen during the walk: raw filename, ISO path, byte size. -/
structure Candidate where
  name : List Char
  path : List Char
  size : Nat
  deriving DecidableEq, Repr

/-- The value stored in the `extracted_files` dict: `{path, size}`. -/
structure PathSize where
  path : List Char
  size : Nat
  deriving DecidableEq, Repr

/-- Source line `file_lower = filename.lower()`: the dict key. -/
def fileKey (name : List Char) : List Char := lowerStr name

/-- Dict lookup on the association-list embedding. -/
def lookupA (m : List (List Char × PathSize)) (k : List Char) : Option PathSize :=
  match m with
  | [] => none
  | (k', v) :: rest => if k' = k then some v else lookupA rest k

/-- Dict assignment `m[k] = v`: replace in place, or append a new binding. -/
def updateA (m : List (List Char × PathSize)) (k : List Char) (v : PathSize) :
    List (List Char × PathSize) :=
  match m with
  | [] => [(k, v)]
  | (k', v') :: rest => if k' = k then (k, v) :: rest else (k', v') :: updateA rest k v

/-- Source lines 185-187: `if file_lower not in extracted_files or file_size >
extracted_files[file_lower]['size']: extracted_files[file_lower] = ...`. -/
def insertCandidate (m : List (List Char × PathSize)) (c : Candidate) :
    List (List Char × PathSize) :=
  match lookupA m (fileKey c.name) with
  | none => updateA m (fileKey c.name) ⟨c.path, c.size⟩
  | some e => if c.size > e.size then updateA m (fileKey c.name) ⟨c.path, c.size⟩ else m

/-- The first pass of `extract_from_iso` over the sequence of candidates that
survive the extension and platform filters. -/
def resolveDuplicates (cs : List Candidate) : List (List Char × PathSize) :=
  cs.foldl insertCandidate []

/-- Declarative reading of the duplicate-resolution policy: the
first-encountered entry whose byte size is at least every other entry's. -/
def firstMaxSpec (l : List PathSize) : Option PathSize :=
  l.find? (fun e => l.all (fun d => d.size ≤ e.size))

/-- The candidates of one key, in encounter order, as stored entries. -/
def classOf (cs : List Candidate) (k : List Char) : List PathSize :=
  (cs.filter (fun c => fileKey c.name = k)).map (fun c => ⟨c.path, c.size⟩)

/-- The effect of one insertion on one stored entry, as a binary step. -/
def stepE : Option PathSize → PathSize → Option PathSize
  | none, e => some e
  | some b, e => if e.size > b.size then some e else some b

/-! ## Platform pattern table (`PLATFORM_PATTERNS`) and matcher

Each source table entry is a dict with keys `pattern`, `platform`,
`rename_format` and optionally `version_extract` / `version_transform`
(lambdas).  The rename template is embedded as a list of parts: literal runs
and the four named placeholders. -/

/-- One part of a Python format template: a literal run or a placeholder. -/
inductive FmtPart where
  | lit (s : List Char)
  | major
  | minor
  | patch
  | version
  deriving DecidableEq, Repr

/-- The keyword arguments handed to `str.format` (and, on the
`version_extract` path, the dict built from the regex groups).  A missing
field models an absent keyword. -/
structure VersionParts where
  major : Option (List Char) := none
  minor : Option (List Char) := none
  patch : Option (List Char) := none
  version : Option (List Char) := none
  deriving DecidableEq, Repr

/-- Resolve one template part; an unbound placeholder is `none`, modelling the
`KeyError` that `str.format` raises for a missing keyword. -/
def fmtLookup (parts : VersionParts) : FmtPart → Option (List Char)
  | .lit s => some s
  | .major => parts.major
  | .minor => parts.minor
  | .patch => parts.patch
  | .version => parts.version

/-- Python `rename_format.format(...)`: concatenate the resolved parts,
failing if any placeholder is unbound. -/
def formatWith (parts : VersionParts) : List FmtPart → Option (List Char)
  | [] => some []
  | p :: rest =>
    match fmtLookup parts p with
    | none => none
    | some s => (formatWith parts rest).map (fun t => s ++ t)

/-- One entry of `PLATFORM_PATTERNS` (source lines 271-366). -/
structure PlatformConfig where
  pattern : List Char → Option (List (List Char))
  platform : List Char
  rename_format : List FmtPart
  version_extract : Option (List (List Char) → VersionParts) := none
  version_transform : Option (List Char → List Char) := none

/-- Output of `match_image_to_platform`: the dict
`platform / rename_to / version`. -/
structure PlatformMapping where
  platform : List Char
  rename_to : List Char
  version : List Char
  deriving DecidableEq, Repr

/-- The `version_extract` lambda shared by the asav and xrv9k entries:
groups 1-3 become major, minor, patch. -/
def extract3 (caps : List (List Char)) : VersionParts :=
  { major := some (caps.getD 0 []), minor := some (caps.getD 1 []),
    patch := some (caps.getD 2 []) }

/-- Replace every underscore by a dot (Python single-character replace). -/
def underscoreToDot (v : List Char) : List Char :=
  v.map (fun c => if c = '_' then '.' else c)

/-- The c8000v `version_transform`: dots for underscores then lower-case,
applied only when the version contains an underscore. -/
def c8000vTransform (v : List Char) : List Char :=
  if v.contains '_' then lowerStr (underscoreToDot v) else v

/-- The ftdv `version_transform`: dots for underscores, applied only when the
version contains an underscore. -/
def ftdvTransform (v : List Char) : List Char :=
  if v.contains '_' then underscoreToDot v else v

/-- Regex of the asav entry. -/
def asavPat : List Char → Option (List (List Char)) :=
  reThreeGroups (strL "asav") (strL ".qcow2")

/-- Regex of the cat9kv entry. -/
def cat9kvPat : List Char → Option (List (List Char)) :=
  rePreSuf (strL "cat9kv") (strL ".qcow2")

/-- Regex of the n9kv entry. -/
def n9kvPat : List Char → Option (List (List Char)) :=
  rePreSuf (strL "nexus9300v") (strL ".qcow2")

/-- Regex of the xrv9k entry. -/
def xrv9kPat : List Char → Option (List (List Char)) :=
  reThreeGroups (strL "xrv9k_fullk9_x_") (strL ".qcow2")

/-- Regex of the csr1000v entry. -/
def csrPat : List Char → Option (List (List Char)) :=
  rePreSuf (strL "csr1000v") (strL ".qcow2")

/-- Regex of the c8000v entry. -/
def c8000vPat : List Char → Option (List (List Char)) :=
  rePreSuf (strL "c8000v_universalk9") (strL ".qco")

/-- Regex of the iol (L3) entry. -/
def iolPat : List Char → Option (List (List Char)) :=
  rePreSuf (strL "x86_64_crb_linux_adventerpr") (strL ".iol")

/-- Regex of the iol L2 entry. -/
def iolL2Pat : List Char → Option (List (List Char)) :=
  rePreSuf (strL "x86_64_crb_linux_l2") (strL ".iol")

/-- Regex shared by the two Cisco ISE entries (platform tags ise and
generic_vm). -/
def visePat : List Char → Option (List (List Char)) :=
  rePreSuf (strL "cisco_vise") (strL ".qcow2")

/-- Regex of the vios entry. -/
def viosPat : List Char → Option (List (List Char)) :=
  rePreSuf (strL "vios_adventerprisek9_m_spa") (strL ".qco")

/-- Regex of the viosl2 entry. -/
def viosL2Pat : List Char → Option (List (List Char)) :=
  rePreSuf (strL "vios_l2_adventerprisek9_m_s") (strL ".qco")

/-- Regex of the ftdv entry. -/
def ftdvPat : List Char → Option (List (List Char)) :=
  rePreSuf (strL "cisco_secure_firewall_threa") (strL ".qco")

/-- Regex of the fmc entry. -/
def fmcPat : List Char → Option (List (List Char)) :=
  rePreSuf (strL "cisco_secure_fw_mgmt_center") (strL ".qco")

/-- Regex of the c9800-cl entry. -/
def c9800Pat : List Char → Option (List (List Char)) :=
  rePreSuf (strL "c9800_cl_universalk9") (strL ".qco")

/-- The ordered platform table, source lines 271-366, entry for entry. -/
def PLATFORM_PATTERNS : List PlatformConfig := [
  { pattern := asavPat, platform := strL "asav",
    rename_format := [.lit (strL "asav"), .major, .lit (strL "-"), .minor,
      .lit (strL "-"), .patch, .lit (strL ".qcow2")],
    version_extract := some extract3 },
  { pattern := cat9kvPat, platform := strL "cat9kv",
    rename_format := [.lit (strL "cat9kv_prd-"), .version, .lit (strL ".qcow2")] },
  { pattern := n9kvPat, platform := strL "n9kv",
    rename_format := [.lit (strL "n9kv-"), .version, .lit (strL ".qcow2")] },
  { pattern := xrv9kPat, platform := strL "xrv9k",
    rename_format := [.lit (strL "xrv9k-fullk9-x-"), .major, .lit (strL "."),
      .minor, .lit (strL "."), .patch, .lit (strL ".qcow2")],
    version_extract := some extract3 },
  { pattern := csrPat, platform := strL "csr1000v",
    rename_format := [.lit (strL "csr1000v-universalk9."), .version,
      .lit (strL "-serial.qcow2")] },
  { pattern := c8000vPat, platform := strL "c8000v",
    rename_format := [.lit (strL "c8000v-"), .version, .lit (strL ".qcow2")],
    version_transform := some c8000vTransform },
  { pattern := iolPat, platform := strL "iol",
    rename_format := [.lit (strL "cisco_iol-"), .version, .lit (strL ".bin")] },
  { pattern := iolL2Pat, platform := strL "iol",
    rename_format := [.lit (strL "cisco_iol-L2-"), .version, .lit (strL ".bin")] },
  { pattern := visePat, platform := strL "ise",
    rename_format := [.lit (strL "cisco-ise-"), .version, .lit (strL ".qcow2")] },
  { pattern := viosPat, platform := strL "vios",
    rename_format := [.lit (strL "cisco_vios-"), .version, .lit (strL ".qcow2")] },
  { pattern := viosL2Pat, platform := strL "viosl2",
    rename_format := [.lit (strL "cisco_viosl2-"), .version, .lit (strL ".qcow2")] },
  { pattern := visePat, platform := strL "generic_vm",
    rename_format := [.lit (strL "cisco_ise-"), .version, .lit (strL ".qcow2")] },
  { pattern := ftdvPat, platform := strL "ftdv",
    rename_format := [.lit (strL "Cisco_Secure_Firewall_Threat_Defense_Virtual-"),
      .version, .lit (strL "-1.qcow2")],
    version_transform := some ftdvTransform },
  { pattern := fmcPat, platform := strL "generic_vm",
    rename_format := [.lit (strL "cisco_fmc-"), .version, .lit (strL ".qcow2")] },
  { pattern := c9800Pat, platform := strL "generic_vm",
    rename_format := [.lit (strL "cisco_c9800cl-"), .version, .lit (strL ".qcow2")] }
]

/-- The body of one loop iteration of `match_image_to_platform` once the
regex has matched: build the mapping dict, on the `version_extract` path from
the groups (the fallback version is not consulted there), otherwise from the
transformed or raw fallback version.  `Except.error` models the uncaught
`KeyError` a template with an unbound placeholder would raise. -/
def applyConfig (cfg : PlatformConfig) (caps : List (List Char))
    (folderVersion : List Char) : Except Unit PlatformMapping :=
  match cfg.version_extract with
  | some ex =>
    let parts := ex caps
    match formatWith parts cfg.rename_format with
    | none => .error ()
    | some r =>
      .ok ⟨cfg.platform, r,
        parts.major.getD [] ++ strL "." ++ parts.minor.getD [] ++ strL "." ++
          parts.patch.getD []⟩
  | none =>
    let version :=
      match cfg.version_transform with
      | some t => t folderVersion
      | none => folderVersion
    match formatWith { version := some version } cfg.rename_format with
    | none => .error ()
    | some r => .ok ⟨cfg.platform, r, version⟩

/-- The loop of `match_image_to_platform` (source lines 393-416): first
regex match wins; `.ok none` is Python's `return None` (no match). -/
def matchPlatformList : List PlatformConfig → List Char → List Char →
    Except Unit (Option PlatformMapping)
  | [], _, _ => .ok none
  | cfg :: rest, filename, fv =>
    match cfg.pattern filename with
    | none => matchPlatformList rest filename fv
    | some caps => (applyConfig cfg caps fv).map some

/-- Source `match_image_to_platform`: strip the ISO `;1` suffix from the
name, then evaluate the table top to bottom. -/
def match_image_to_platform (name folderVersion : List Char) :
    Except Unit (Option PlatformMapping) :=
  matchPlatformList PLATFORM_PATTERNS (stripSemi1 name) folderVersion

/-! ## Extraction pass (`extract_from_iso`, second pass)

The second pass iterates over the resolved dict.  Per file: print, skip when
the recorded size is zero, stream the payload with `iso.get_file_from_iso`
(which may raise — there is no enclosing `try`, so a raise aborts the loop
and propagates), then write the `.version_info` sidecar holding the parent
folder name.  Disk writes are recorded as events; the streaming call is
abstracted as an `Except`-valued oracle. -/

/-- One resolved file about to be extracted: dict key (lower-cased name),
ISO path and recorded size. -/
structure ResolvedFile where
  name : List Char
  path : List Char
  size : Nat
  deriving DecidableEq, Repr

/-- A disk write (or skip) performed by the second pass. -/
inductive ExtractEvent where
  | skippedZero (f : ResolvedFile)
  | wroteFile (f : ResolvedFile)
  | wroteSidecar (f : ResolvedFile) (folder : List Char)
  deriving DecidableEq, Repr

/-- Source lines 190-214, one iteration per resolved file: zero-size entries
are skipped before any write; a raise from the streaming call stops the loop
at once (no handler) and the error propagates out of `extract_from_iso`;
after a successful stream the sidecar is written with the parent folder
name. -/
def extractPass (stream : ResolvedFile → Except (List Char) Unit) :
    List ResolvedFile → List ExtractEvent × Option (List Char)
  | [] => ([], none)
  | f :: rest =>
    if f.size = 0 then
      let (evs, err) := extractPass stream rest
      (.skippedZero f :: evs, err)
    else
      match stream f with
      | .error e => ([], some e)
      | .ok _ =>
        let (evs, err) := extractPass stream rest
        (.wroteFile f :: .wroteSidecar f (parentFolder f.path) :: evs, err)

/-! ## Batch loop (`extract_images_from_refplats` and `extract_from_zip`)

The top-level loop over the refplats directory (source lines 79-83) calls
`extract_from_zip` or `extract_from_iso` with no exception handler.
`extract_from_zip` (lines 99-103) wraps each ISO found inside the ZIP in its
own try/except, reporting the error and continuing with the next ISO.
Processing one ISO is abstracted as an `Except`-valued oracle indexed by an
ISO identifier. -/

/-- One input found in the refplats directory: a standalone ISO or a ZIP
containing ISOs. -/
inductive RefplatFile where
  | iso (i : Nat)
  | zip (isos : List Nat)
  deriving DecidableEq, Repr

/-- Source lines 99-103: inside one ZIP every ISO is attempted; a failure is
caught, reported and recorded, and the loop moves to the next ISO. -/
def extractZipIsos (proc : Nat → Except (List Char) Unit) (isos : List Nat) :
    List (Nat × Option (List Char)) :=
  isos.map fun i =>
    (i, match proc i with
        | .ok _ => none
        | .error e => some e)

/-- Source lines 79-83: the batch loop.  There is no handler around the two
calls, so a raise from a standalone ISO (or a ZIP-level failure, re-raised at
line 107) aborts the loop; the first component lists the ISOs attempted with
their outcome, the second is the propagated error, if any. -/
def extractImagesBatch (proc : Nat → Except (List Char) Unit) :
    List RefplatFile → List (Nat × Option (List Char)) × Option (List Char)
  | [] => ([], none)
  | .zip isos :: rest =>
    let zr := extractZipIsos proc isos
    let (r, e) := extractImagesBatch proc rest
    (zr ++ r, e)
  | .iso i :: rest =>
    match proc i with
    | .error e => ([], some e)
    | .ok _ =>
      let (r, e) := extractImagesBatch proc rest
      ((i, none) :: r, e)

/-! ## Rock Ridge duplicate-ER relaxation

The source (lines 130-153) patches the external library's
`RockRidge.has_entry` so that it reports the extension-identifier (ER) field
as never present, which disables the library's duplicate-ER corruption
check.  The patched predicate is embedded from the source; the library's
SUSP entry parse loop itself is not in the source tree and is modelled from
the design document. -/

/-- An entry of a directory record's System Use field: an extension
identifier record with its payload, or any other entry kind. -/
inductive SUSPEntry where
  | er (data : List Char)
  | other (tag : List Char)
  deriving DecidableEq, Repr

/-- The payload of an ER entry, `none` for other entries. -/
def erData : SUSPEntry → Option (List Char)
  | .er d => some d
  | .other _ => none

/-- Decoder state: the ER field decoded so far (the only field the patch
concerns). -/
structure RockRidge where
  er_record : Option (List Char) := none
  deriving DecidableEq, Repr

/-- Modelled from the spec: the library's original `has_entry`, which reports
whether a named field has already been decoded on this record (spec section
4.3; the library source is not part of this repository). -/
def has_entry (rr : RockRidge) (name : List Char) : Bool :=
  if name = strL "er_record" then rr.er_record.isSome else false

/-- Source lines 137-141, `patched_has_entry`: report the ER field as never
present, delegate every other name to the original predicate. -/
def patched_has_entry (rr : RockRidge) (name : List Char) : Bool :=
  if name = strL "er_record" then false else has_entry rr name

/-- Modelled from the spec: the library's SUSP parse loop over the entries of
one directory record (not in the source tree).  For an ER entry it raises a
corruption error when `has_entry` reports the field present, and otherwise
records the entry, keeping the first occurrence (spec section 4.3: the field
is treated as present once the first qualifying entry is seen, later
duplicates are silently skipped). -/
def parseSUSP (hasEnt : RockRidge → List Char → Bool) :
    List SUSPEntry → RockRidge → Except (List Char) RockRidge
  | [], rr => .ok rr
  | .er d :: rest, rr =>
    if hasEnt rr (strL "er_record") then .error (strL "duplicate ER record")
    else parseSUSP hasEnt rest { rr with er_record := some (rr.er_record.getD d) }
  | .other _ :: rest, rr => parseSUSP hasEnt rest rr

/-- Decoding one record the way `extract_from_iso` does it: with the patched
predicate installed (source line 153). -/
def decodeRockRidge (es : List SUSPEntry) : Except (List Char) RockRidge :=
  parseSUSP patched_has_entry es {}

/-! ## Lemmas about the duplicate-resolver map -/

theorem lookupA_updateA_self (m : List (List Char × PathSize)) (k : List Char) (v : PathSize) :
    lookupA (updateA m k v) k = some v := by
  induction m with
  | nil => simp [updateA, lookupA]
  | cons p rest ih =>
    obtain ⟨k', v'⟩ := p
    by_cases h : k' = k <;> simp [updateA, lookupA, h, ih]

theorem lookupA_updateA_ne (m : List (List Char × PathSize)) {k k₁ : List Char}
    (v : PathSize) (h : k ≠ k₁) : lookupA (updateA m k v) k₁ = lookupA m k₁ := by
  induction m with
  | nil => simp [updateA, lookupA, h]
  | cons p rest ih =>
    obtain ⟨k', v'⟩ := p
    by_cases h' : k' = k
    · subst h'; simp [updateA, lookupA, h]
    · simp [updateA, lookupA, h', ih]

theorem lookupA_insertCandidate (m : List (List Char × PathSize)) (c : Candidate)
    (k : List Char) :
    lookupA (insertCandidate m c) k =
      if fileKey c.name = k then stepE (lookupA m k) ⟨c.path, c.size⟩ else lookupA m k := by
  by_cases h : fileKey c.name = k
  · subst h
    unfold insertCandidate
    cases hl : lookupA m (fileKey c.name) with
    | none => simp [hl, stepE, lookupA_updateA_self]
    | some e =>
      by_cases hs : c.size > e.size
      · simp [hl, hs, stepE, lookupA_updateA_self]
      · simp [hl, hs, stepE]
  · unfold insertCandidate
    cases hl : lookupA m (fileKey c.name) with
    | none => simp [h, lookupA_updateA_ne m _ h]
    | some e =>
      by_cases hs : c.size > e.size
      · simp [h, hs, lookupA_updateA_ne m _ h]
      · simp [h, hs]

theorem classOf_cons (c : Candidate) (cs : List Candidate) (k : List Char) :
    classOf (c :: cs) k =
      if fileKey c.name = k then (⟨c.path, c.size⟩ : PathSize) :: classOf cs k
      else classOf cs k := by
  by_cases h : fileKey c.name = k <;> simp [classOf, List.filter_cons, h]

theorem lookupA_foldl_insert (cs : List Candidate) (m : List (List Char × PathSize))
    (k : List Char) :
    lookupA (cs.foldl insertCandidate m) k = (classOf cs k).foldl stepE (lookupA m k) := by
  induction cs generalizing m with
  | nil => simp [classOf]
  | cons c cs ih =>
    rw [List.foldl_cons, ih, lookupA_insertCandidate, classOf_cons]
    by_cases h : fileKey c.name = k <;> simp [h]

theorem findCongr {p q : PathSize → Bool} :
    ∀ l : List PathSize, (∀ a ∈ l, p a = q a) → l.find? p = l.find? q
  | [], _ => rfl
  | a :: l, h => by
    have ha : p a = q a := h a (by simp)
    rw [List.find?_cons, List.find?_cons, ha]
    cases hq : q a with
    | true => rfl
    | false =>
      simp only [cond_false]
      exact findCongr l (fun b hb => h b (by simp [hb]))

theorem firstMax_head_lt (b x : PathSize) (xs : List PathSize) (h : b.size < x.size) :
    firstMaxSpec (b :: x :: xs) = firstMaxSpec (x :: xs) := by
  have key : ∀ e : PathSize,
      ((b :: x :: xs).all (fun d => d.size ≤ e.size)) =
        ((x :: xs).all (fun d => d.size ≤ e.size)) := by
    intro e
    simp only [List.all_cons]
    cases hfx : decide (x.size ≤ e.size) with
    | false => simp [hfx]
    | true =>
      have hxe : x.size ≤ e.size := of_decide_eq_true hfx
      have hbe : b.size ≤ e.size := by omega
      simp [hfx, hbe]
  unfold firstMaxSpec
  rw [List.find?_cons]
  have hpb : ((b :: x :: xs).all (fun d => d.size ≤ b.size)) = false := by
    simp only [List.all_cons]
    have hx : decide (x.size ≤ b.size) = false := by
      simp only [decide_eq_false_iff_not]; omega
    simp [hx]
  rw [hpb]
  simp only [cond_false]
  exact findCongr _ (fun e _ => key e)


theorem firstMax_head_ge (b x : PathSize) (xs : List PathSize) (h : x.size ≤ b.size) :
    firstMaxSpec (b :: x :: xs) = firstMaxSpec (b :: xs) := by
  have key : ∀ e : PathSize,
      ((b :: x :: xs).all (fun d => d.size ≤ e.size)) =
        ((b :: xs).all (fun d => d.size ≤ e.size)) := by
    intro e
    simp only [List.all_cons]
    cases hfb : decide (b.size ≤ e.size) with
    | false => simp [hfb]
    | true =>
      have hbe : b.size ≤ e.size := of_decide_eq_true hfb
      have hxe : x.size ≤ e.size := by omega
      simp [hfb, hxe]
  unfold firstMaxSpec
  cases hqb : ((b :: xs).all (fun d => d.size ≤ b.size)) with
  | true =>
    have hpb : ((b :: x :: xs).all (fun d => d.size ≤ b.size)) = true := by
      rw [key b]; exact hqb
    simp only [List.find?_cons]
    rw [hpb, hqb]
  | false =>
    have hpb : ((b :: x :: xs).all (fun d => d.size ≤ b.size)) = false := by
      rw [key b]; exact hqb
    have hxsb : (xs.all (fun d => d.size ≤ b.size)) = false := by
      cases hx : (xs.all (fun d => d.size ≤ b.size)) with
      | false => rfl
      | true =>
        exfalso
        have hall : ((b :: xs).all (fun d => d.size ≤ b.size)) = true := by
          simp [List.all_cons, hx]
        rw [hall] at hqb
        exact Bool.noConfusion hqb
    have hpx : ((b :: x :: xs).all (fun d => d.size ≤ x.size)) = false := by
      simp only [List.all_cons]
      cases hbx : decide (b.size ≤ x.size) with
      | false => simp [hbx]
      | true =>
        have hbx2 : b.size ≤ x.size := of_decide_eq_true hbx
        have hsize : x.size = b.size := by omega
        have hxx : (xs.all (fun d => d.size ≤ x.size)) = false := by
          rw [hsize]; exact hxsb
        simp [hxx]
    simp only [List.find?_cons]
    rw [hpb, hqb, hpx]
    simp only [cond_false]
    exact findCongr _ (fun e _ => key e)

theorem foldl_stepE_some (l : List PathSize) :
    ∀ b : PathSize, l.foldl stepE (some b) = firstMaxSpec (b :: l) := by
  induction l with
  | nil =>
    intro b
    simp [firstMaxSpec, List.find?_cons, List.all_cons]
  | cons x xs ih =>
    intro b
    rw [List.foldl_cons]
    by_cases hgt : x.size > b.size
    · have hs : stepE (some b) x = some x := by simp [stepE, hgt]
      rw [hs, ih x, firstMax_head_lt b x xs hgt]
    · have hle : x.size ≤ b.size := by omega
      have hs : stepE (some b) x = some b := by simp [stepE]; omega
      rw [hs, ih b, firstMax_head_ge b x xs hle]

/-- C1: for every sequence of candidates inserted into the per-volume
duplicate-resolver map and every key, the entry retained at the end is the
first-encountered candidate of that key whose byte size is at least every
other same-key candidate's — i.e. the greatest byte length wins and a later
candidate replaces the stored one only if strictly larger, ties keeping the
first encountered. -/
theorem c1_duplicate_resolver_first_max (cs : List Candidate) (k : List Char) :
    lookupA (resolveDuplicates cs) k = firstMaxSpec (classOf cs k) := by
  rw [resolveDuplicates, lookupA_foldl_insert]
  have h0 : lookupA ([] : List (List Char × PathSize)) k = none := rfl
  rw [h0]
  cases hc : classOf cs k with
  | nil => rfl
  | cons x xs =>
    rw [List.foldl_cons]
    have hs : stepE none x = some x := rfl
    rw [hs, foldl_stepE_some]

/-! ## Lemmas about the pattern matcher -/

theorem matchLit_self_append (l r : List Char) : matchLit l (l ++ r) = some r := by
  induction l with
  | nil => rfl
  | cons c cs ih => simp [matchLit, ih]

theorem matchLit_some : ∀ (l s r : List Char), matchLit l s = some r → s = l ++ r := by
  intro l
  induction l with
  | nil => intro s r h; simpa [matchLit] using h
  | cons c cs ih =>
    intro s r h
    cases s with
    | nil => exact absurd h (by simp [matchLit])
    | cons d ds =>
      by_cases hc : c = d
      · subst hc
        simp only [matchLit, if_pos rfl] at h
        simpa using ih ds r h
      · simp [matchLit, hc] at h

/-- C2: the pattern table is evaluated top to bottom and the first matching
entry wins: every filename accepted by the Cisco ISE regex (applied, as in
the source, to the name with the ISO version suffix stripped) is mapped by
`match_image_to_platform` to platform tag ise, with the ise entry's rename
and the raw fallback version — never to the later generic_vm entry that
carries the identical regex. -/
theorem c2_first_match_wins_ise (name v : List Char) (caps : List (List Char))
    (h : visePat (stripSemi1 name) = some caps) :
    match_image_to_platform name v =
      .ok (some ⟨strL "ise", strL "cisco-ise-" ++ (v ++ strL ".qcow2"), v⟩) := by
  unfold visePat rePreSuf at h
  cases hm : matchLit (strL "cisco_vise") (stripSemi1 name) with
  | none => rw [hm] at h; exact absurd h (by simp)
  | some r =>
    rw [hm] at h
    have h2 : (if dotStarSuf (strL ".qcow2") r = true then some [] else
        (none : Option (List (List Char)))) = some caps := h
    cases hdot : dotStarSuf (strL ".qcow2") r with
    | false => rw [hdot] at h2; simp at h2
    | true =>
      have hs : stripSemi1 name = strL "cisco_vise" ++ r := matchLit_some _ _ _ hm
      unfold match_image_to_platform
      rw [hs]
      have e1 : asavPat (strL "cisco_vise" ++ r) = none := rfl
      have e2 : cat9kvPat (strL "cisco_vise" ++ r) = none := rfl
      have e3 : n9kvPat (strL "cisco_vise" ++ r) = none := rfl
      have e4 : xrv9kPat (strL "cisco_vise" ++ r) = none := rfl
      have e5 : csrPat (strL "cisco_vise" ++ r) = none := rfl
      have e6 : c8000vPat (strL "cisco_vise" ++ r) = none := rfl
      have e7 : iolPat (strL "cisco_vise" ++ r) = none := rfl
      have e8 : iolL2Pat (strL "cisco_vise" ++ r) = none := rfl
      have e9 : visePat (strL "cisco_vise" ++ r) = some [] := by
        unfold visePat rePreSuf
        rw [matchLit_self_append]
        simp [hdot]
      simp only [PLATFORM_PATTERNS, matchPlatformList, e1, e2, e3, e4, e5, e6, e7, e8, e9]
      simp [applyConfig, formatWith, fmtLookup, Except.map]

theorem c2_first_match_wins_ise_witness :
    visePat (stripSemi1 (strL "cisco_vise.qcow2")) = some [] ∧
    match_image_to_platform (strL "cisco_vise.qcow2") (strL "3.4") =
      .ok (some ⟨strL "ise", strL "cisco-ise-" ++ (strL "3.4" ++ strL ".qcow2"),
        strL "3.4"⟩) :=
  ⟨by decide, c2_first_match_wins_ise (strL "cisco_vise.qcow2") (strL "3.4") [] (by decide)⟩

/-- C10: on the version_extract path the fallback version is never consulted.
For every filename accepted by the asav or the xrv9k table entry (the two
entries defining a version_extract rule), the resulting platform mapping —
tag, renamed filename and resolved version — is the same for every fallback
version string. -/
theorem c10_version_extract_ignores_fallback (name v1 v2 : List Char)
    (caps : List (List Char))
    (h : asavPat (stripSemi1 name) = some caps ∨ xrv9kPat (stripSemi1 name) = some caps) :
    match_image_to_platform name v1 = match_image_to_platform name v2 := by
  cases h with
  | inl ha =>
    unfold match_image_to_platform
    simp only [PLATFORM_PATTERNS, matchPlatformList, ha]
    simp only [applyConfig]
  | inr hx =>
    unfold xrv9kPat reThreeGroups at hx
    cases hm : matchLit (strL "xrv9k_fullk9_x_") (stripSemi1 name) with
    | none =>
      rw [hm] at hx
      have hx2 : (none : Option (List (List Char))) = some caps := hx
      simp at hx2
    | some r1 =>
      have hs : stripSemi1 name = strL "xrv9k_fullk9_x_" ++ r1 := matchLit_some _ _ _ hm
      have hx3 : xrv9kPat (strL "xrv9k_fullk9_x_" ++ r1) = some caps := by
        rw [← hs]; unfold xrv9kPat reThreeGroups; exact hx
      unfold match_image_to_platform
      rw [hs]
      have e1 : asavPat (strL "xrv9k_fullk9_x_" ++ r1) = none := rfl
      have e2 : cat9kvPat (strL "xrv9k_fullk9_x_" ++ r1) = none := rfl
      have e3 : n9kvPat (strL "xrv9k_fullk9_x_" ++ r1) = none := rfl
      simp only [PLATFORM_PATTERNS, matchPlatformList, e1, e2, e3, hx3]
      simp only [applyConfig]

theorem c10_version_extract_ignores_fallback_witness :
    asavPat (stripSemi1 (strL "asav9_23_1.qcow2")) =
        some [strL "9", strL "23", strL "1"] ∧
    match_image_to_platform (strL "asav9_23_1.qcow2") (strL "20250101") =
      match_image_to_platform (strL "asav9_23_1.qcow2") (strL "different") :=
  ⟨by decide,
    c10_version_extract_ignores_fallback (strL "asav9_23_1.qcow2") (strL "20250101")
      (strL "different") [strL "9", strL "23", strL "1"] (Or.inl (by decide))⟩

/-- C8: the filename asav9_23_1.qcow2 — captures (9, 23, 1) of the asav
pattern — is renamed to exactly asav9-23-1.qcow2, for every value of the
fallback version string. -/
theorem c8_asav_rename (v : List Char) :
    match_image_to_platform (strL "asav9_23_1.qcow2") v =
      .ok (some ⟨strL "asav", strL "asav9-23-1.qcow2", strL "9.23.1"⟩) := rfl

/-- C9: the filename c8000v_universalk9_17_16_01A.qco with fallback version
17_16_01A is renamed, after the entry's version transform (underscores to
dots, lower-cased), to exactly c8000v-17.16.01a.qcow2. -/
theorem c9_c8000v_rename :
    match_image_to_platform (strL "c8000v_universalk9_17_16_01A.qco") (strL "17_16_01A") =
      .ok (some ⟨strL "c8000v", strL "c8000v-17.16.01a.qcow2", strL "17.16.01a"⟩) := rfl

/-- C5 is false as stated: the duplicate-resolver key is `filename.lower()`
only — the ISO `;1` version suffix is not stripped when the key is formed
(it is stripped later, for the output filename).  Two candidates whose names
differ only by a trailing `;1` therefore get distinct keys and are both
retained, not resolved as duplicates of one another. -/
theorem c5_claim_counterexample :
    fileKey (strL "foo.qcow2;1") ≠ fileKey (strL "foo.qcow2") ∧
    (resolveDuplicates
        [⟨strL "foo.qcow2;1", strL "/virl-base-images/a/foo.qcow2;1", 5⟩,
         ⟨strL "foo.qcow2", strL "/virl-base-images/b/foo.qcow2", 9⟩]).length = 2 := by
  decide

/-- C5 (amended): the duplicate-resolver key is case-folded only.  Two
candidates whose names agree up to letter case share one key and are
resolved as duplicates of one another — the strictly larger one is retained,
the first encountered on a tie; a trailing `;1` is not part of the key. -/
theorem c5_case_folded_key (n1 p1 n2 p2 : List Char) (s1 s2 : Nat)
    (h : lowerStr n1 = lowerStr n2) :
    resolveDuplicates [⟨n1, p1, s1⟩, ⟨n2, p2, s2⟩] =
      [(fileKey n1, if s2 > s1 then ⟨p2, s2⟩ else ⟨p1, s1⟩)] := by
  have hk : fileKey n2 = fileKey n1 := h.symm
  unfold resolveDuplicates insertCandidate
  simp only [List.foldl_cons, List.foldl_nil, lookupA, updateA, hk]
  by_cases hss : s2 > s1 <;> simp [hss]

theorem c5_case_folded_key_witness :
    lowerStr (strL "FOO.QCOW2") = lowerStr (strL "foo.qcow2") ∧
    resolveDuplicates
        [⟨strL "FOO.QCOW2", strL "/a/FOO.QCOW2", 5⟩,
         ⟨strL "foo.qcow2", strL "/b/foo.qcow2", 9⟩] =
      [(fileKey (strL "FOO.QCOW2"), ⟨strL "/b/foo.qcow2", 9⟩)] :=
  ⟨by decide, by
    have hres := c5_case_folded_key (strL "FOO.QCOW2") (strL "/a/FOO.QCOW2")
      (strL "foo.qcow2") (strL "/b/foo.qcow2") 5 9 (by decide)
    simpa using hres⟩

/-- C3 is false as stated: with a streaming oracle that fails on the first
resolved file and would succeed on the second, the second-pass loop stops at
the failure — the error propagates, and the second file of the same volume
is never extracted. -/
theorem c3_claim_counterexample :
    extractPass
        (fun f => if f.name = strL "a.qcow2" then .error (strL "io failure") else .ok ())
        [⟨strL "a.qcow2", strL "/virl-base-images/x/a.qcow2", 4⟩,
         ⟨strL "b.qcow2", strL "/virl-base-images/x/b.qcow2", 7⟩] =
      ([], some (strL "io failure")) ∧
    (fun f : ResolvedFile =>
        if f.name = strL "a.qcow2" then Except.error (strL "io failure")
        else Except.ok ())
      ⟨strL "b.qcow2", strL "/virl-base-images/x/b.qcow2", 7⟩ = Except.ok () := by
  constructor <;> rfl

/-- C3 (amended): a failure raised while streaming file N of the resolved
list aborts extraction of the volume — the exception propagates out of the
loop and none of the remaining files is extracted. -/
theorem c3_stream_failure_aborts (stream : ResolvedFile → Except (List Char) Unit)
    (f : ResolvedFile) (rest : List ResolvedFile) (e : List Char)
    (h0 : f.size ≠ 0) (h : stream f = .error e) :
    extractPass stream (f :: rest) = ([], some e) := by
  unfold extractPass
  simp [h0, h]

theorem c3_stream_failure_aborts_witness :
    extractPass (fun _ => .error (strL "disk full"))
        [⟨strL "a.qcow2", strL "/x/a.qcow2", 4⟩, ⟨strL "b.qcow2", strL "/x/b.qcow2", 7⟩] =
      ([], some (strL "disk full")) :=
  c3_stream_failure_aborts (fun _ => .error (strL "disk full"))
    ⟨strL "a.qcow2", strL "/x/a.qcow2", 4⟩ [⟨strL "b.qcow2", strL "/x/b.qcow2", 7⟩]
    (strL "disk full") (by decide) rfl

/-- C7: a resolved candidate whose recorded size is zero produces no output
file and no sidecar version-metadata file, and a sidecar event for a file
exists only when that file's size is non-zero and its streaming call
succeeded. -/
theorem c7_zero_size_no_output (stream : ResolvedFile → Except (List Char) Unit)
    (fs : List ResolvedFile) (f : ResolvedFile) :
    (f.size = 0 →
      ExtractEvent.wroteFile f ∉ (extractPass stream fs).1 ∧
      ∀ fl, ExtractEvent.wroteSidecar f fl ∉ (extractPass stream fs).1) ∧
    (∀ fl, ExtractEvent.wroteSidecar f fl ∈ (extractPass stream fs).1 →
      f.size ≠ 0 ∧ stream f = .ok ()) := by
  induction fs with
  | nil => simp [extractPass]
  | cons g gs ih =>
    cases hp : extractPass stream gs with
    | mk evs err =>
      simp only [hp] at ih
      by_cases hgz : g.size = 0
      · have hun : extractPass stream (g :: gs) = (.skippedZero g :: evs, err) := by
          unfold extractPass
          rw [if_pos hgz, hp]
        rw [hun]
        constructor
        · intro hf0
          have ihh := ih.1 hf0
          refine ⟨?_, ?_⟩
          · simp only [List.mem_cons]
            rintro (hc | hc)
            · exact ExtractEvent.noConfusion hc
            · exact ihh.1 hc
          · intro fl
            simp only [List.mem_cons]
            rintro (hc | hc)
            · exact ExtractEvent.noConfusion hc
            · exact ihh.2 fl hc
        · intro fl hmem
          simp only [List.mem_cons] at hmem
          rcases hmem with hc | hc
          · exact ExtractEvent.noConfusion hc
          · exact ih.2 fl hc
      · cases hstream : stream g with
        | error e =>
          have hun : extractPass stream (g :: gs) = ([], some e) := by
            unfold extractPass
            rw [if_neg hgz, hstream]
          rw [hun]
          constructor
          · intro _
            exact ⟨by simp, fun fl => by simp⟩
          · intro fl hmem
            simp at hmem
        | ok u =>
          cases u
          have hun : extractPass stream (g :: gs) =
              (.wroteFile g :: .wroteSidecar g (parentFolder g.path) :: evs, err) := by
            unfold extractPass
            rw [if_neg hgz, hstream, hp]
          rw [hun]
          constructor
          · intro hf0
            have hne : ¬ (g = f) := fun hgf2 => hgz (by rw [hgf2, hf0])
            have ihh := ih.1 hf0
            refine ⟨?_, ?_⟩
            · simp only [List.mem_cons]
              rintro (hc | hc | hc)
              · exact hne (by injection hc with h1; exact h1.symm)
              · exact ExtractEvent.noConfusion hc
              · exact ihh.1 hc
            · intro fl
              simp only [List.mem_cons]
              rintro (hc | hc | hc)
              · exact ExtractEvent.noConfusion hc
              · exact hne (by injection hc with h1 h2; exact h1.symm)
              · exact ihh.2 fl hc
          · intro fl hmem
            simp only [List.mem_cons] at hmem
            rcases hmem with hc | hc | hc
            · exact ExtractEvent.noConfusion hc
            · have h1 : f = g := by injection hc with h1 h2
              subst h1
              exact ⟨hgz, hstream⟩
            · exact ih.2 fl hc

theorem c7_zero_size_no_output_witness :
    (ExtractEvent.wroteFile ⟨strL "z.img", strL "/v/a/z.img", 0⟩ ∉
      (extractPass (fun _ => .ok ())
        [⟨strL "z.img", strL "/v/a/z.img", 0⟩, ⟨strL "n.img", strL "/v/a/n.img", 7⟩]).1) ∧
    ((⟨strL "n.img", strL "/v/a/n.img", 7⟩ : ResolvedFile).size ≠ 0 ∧
      (fun _ : ResolvedFile => (Except.ok () : Except (List Char) Unit))
        ⟨strL "n.img", strL "/v/a/n.img", 7⟩ = .ok ()) :=
  ⟨((c7_zero_size_no_output (fun _ => .ok ())
      [⟨strL "z.img", strL "/v/a/z.img", 0⟩, ⟨strL "n.img", strL "/v/a/n.img", 7⟩]
      ⟨strL "z.img", strL "/v/a/z.img", 0⟩).1 rfl).1,
   (c7_zero_size_no_output (fun _ => .ok ())
      [⟨strL "z.img", strL "/v/a/z.img", 0⟩, ⟨strL "n.img", strL "/v/a/n.img", 7⟩]
      ⟨strL "n.img", strL "/v/a/n.img", 7⟩).2 (strL "a") (by decide)⟩

/-- C4 is false as stated: in a batch of two standalone ISO files where the
first fails (e.g. no parseable Primary Volume Descriptor) and the second
would succeed, the top-level loop has no handler — the error propagates and
the sibling image is never attempted. -/
theorem c4_claim_counterexample :
    extractImagesBatch
        (fun i => if i = 0 then .error (strL "invalid volume") else .ok ())
        [.iso 0, .iso 1] = ([], some (strL "invalid volume")) ∧
    (fun i : Nat =>
        if i = 0 then (Except.error (strL "invalid volume") : Except (List Char) Unit)
        else Except.ok ()) 1 = Except.ok () := by
  constructor <;> rfl

/-- C4 (amended): per-image containment holds only for ISOs inside a ZIP
archive: every ISO of a ZIP is attempted — with its own outcome recorded —
whatever happened to its siblings in the same ZIP, and the batch continues
past the ZIP; a raise from a standalone ISO aborts the remaining batch. -/
theorem c4_zip_sibling_isolation (proc : Nat → Except (List Char) Unit)
    (isos : List Nat) (rest : List RefplatFile) (j : Nat) (hj : j ∈ isos) :
    ((j, match proc j with | .ok _ => none | .error e => some e) ∈
      (extractImagesBatch proc (.zip isos :: rest)).1) ∧
    (extractImagesBatch proc (.zip isos :: rest)).2 =
      (extractImagesBatch proc rest).2 := by
  have h1 : extractImagesBatch proc (.zip isos :: rest) =
      (extractZipIsos proc isos ++ (extractImagesBatch proc rest).1,
        (extractImagesBatch proc rest).2) := by
    cases hp : extractImagesBatch proc rest with
    | mk r e =>
      simp only [extractImagesBatch, hp]
  rw [h1]
  refine ⟨?_, rfl⟩
  simp only [List.mem_append]
  left
  unfold extractZipIsos
  exact List.mem_map.mpr ⟨j, hj, rfl⟩

theorem c4_zip_sibling_isolation_witness :
    ((1 : Nat), some (strL "bad volume")) ∈
      (extractImagesBatch
        (fun i => if i = 1 then .error (strL "bad volume") else .ok ())
        [.zip [0, 1, 2], .iso 3]).1 := by
  have hm := (c4_zip_sibling_isolation
    (fun i => if i = 1 then .error (strL "bad volume") else .ok ())
    [0, 1, 2] [.iso 3] 1 (by decide)).1
  simpa using hm

/-- With the patched predicate installed, the SUSP parse loop never raises
and keeps the first ER payload it sees. -/
theorem parseSUSP_patched (es : List SUSPEntry) :
    ∀ o : Option (List Char),
      parseSUSP patched_has_entry es ⟨o⟩ =
        .ok ⟨(o.toList ++ es.filterMap erData).head?⟩ := by
  induction es with
  | nil =>
    intro o
    cases o <;> simp [parseSUSP]
  | cons x rest ih =>
    intro o
    cases x with
    | er d =>
      have hpe : patched_has_entry ⟨o⟩ (strL "er_record") = false := rfl
      cases o <;>
        simp [parseSUSP, hpe, ih, erData, List.filterMap_cons]
    | other t =>
      cases o <;> simp [parseSUSP, ih, erData, List.filterMap_cons]

/-- C6: for every directory record carrying two or more Rock Ridge
extension-identifier (ER) entries, decoding with the patched predicate
succeeds — no corruption failure is raised — and the first ER entry's data
is the one recorded; later duplicates are silently skipped. -/
theorem c6_duplicate_er_first_used (es : List SUSPEntry)
    (h : 2 ≤ (es.filterMap erData).length) :
    decodeRockRidge es = .ok ⟨(es.filterMap erData).head?⟩ := by
  unfold decodeRockRidge
  have hp := parseSUSP_patched es none
  simpa using hp

theorem c6_duplicate_er_first_used_witness :
    2 ≤ (([SUSPEntry.er (strL "RRIP_1991A"), SUSPEntry.other (strL "PX"),
        SUSPEntry.er (strL "IEEE_P1282")] : List SUSPEntry).filterMap erData).length ∧
    decodeRockRidge [SUSPEntry.er (strL "RRIP_1991A"), SUSPEntry.other (strL "PX"),
        SUSPEntry.er (strL "IEEE_P1282")] = .ok ⟨some (strL "RRIP_1991A")⟩ :=
  ⟨by decide, by
    have hd := c6_duplicate_er_first_used
      [SUSPEntry.er (strL "RRIP_1991A"), SUSPEntry.other (strL "PX"),
        SUSPEntry.er (strL "IEEE_P1282")] (by decide)
    simpa using hd⟩
